import Mathlib

/-!
# Verification of the Tamil playlist retrieval script

Shallow embedding of `src/tamil_playlist_scraper.py`.

The script has two functions:
* `fetch_tamil_playlists(queries)`: validates that `queries` is a list
  (raising `ValueError` otherwise, *before* entering its `try` block),
  captures one timestamp, creates the output directory and loads the
  existing output spreadsheet (both also before the `try`, so their
  exceptions escape), then inside a `try` block loops over the queries,
  calls the external search API, filters returned items by a
  case-insensitive whole-word regex over a fixed keyword list, collects
  matching records, concatenates them after the existing rows and
  writes the combined table (the write is inside the `try` and may
  raise).  Any exception inside the `try` is caught and the function
  returns `None`.
* `run_tamil_playlist_scraper()`: reads `Queries.xlsx`, raising
  `FileNotFoundError` if absent and `KeyError` if the `Queries` column
  is missing, extracts the non-empty query cells, calls the retriever,
  and catches every exception at the outermost level so the process
  always exits normally.

Effects are made explicit: the search API is a parameter
`search : String → Except Err (List Item)`; the output file is threaded
as `Option (List Record)` (`none` = file absent); an exception raised
by `os.makedirs` or `pd.read_excel` before the `try` is the parameter
`preErr`, and an exception raised by `to_excel` inside the `try` is the
parameter `writeErr` (a failed write is modelled as leaving the file
unchanged; partially written files are not modelled).  Python
exceptions are the `Except Err` error branch.

The regex word-character test `\b`/`\w` and the `re.IGNORECASE` case
folding of Python `str` patterns use the full Unicode tables, which
this embedding does not reproduce.  The matcher is therefore
parameterised by the word-character predicate `isW` and the folding
function `fold`; theorems about the matcher's structure hold for every
choice, in particular Python's, and concrete evaluations are done at
the ASCII restrictions (`asciiWordChar`, `Char.toLower`), which agree
with Python's tables on the ASCII-only names used here.
-/

namespace TamilScraper

/-- Python exception kinds that the script can raise or meet. -/
inductive Err where
  | valueError
  | keyError
  | searchError
  | writeError
  | fileNotFound
  | missingColumn
deriving DecidableEq, Repr

/-- One item of `search_results['playlists']['items']`.  `id` models
`playlist.get('id')` (may be `None`); `name` models the `'name'` key
(absent = `none`, read via `playlist.get('name', '')`); `tracksTotal`
models `playlist['tracks']['total']`, where `none` stands for a missing
`'tracks'` or `'total'` key, on which the bracket lookup raises
`KeyError`. -/
structure Item where
  id : Option String
  name : Option String
  tracksTotal : Option Nat
deriving DecidableEq, Repr

/-- One dict appended to `playlist_records` (a row of the output
table). -/
structure Record where
  PlaylistID : Option String
  PlaylistName : String
  NumSongs : Nat
  Query : String
  Language : String
  Timestamp : String
deriving DecidableEq, Repr

/-- `tamil_keywords = ['tamil', 'kollywood', 'chennai', 'madras', 'tamizh']`. -/
def tamil_keywords : List String :=
  ["tamil", "kollywood", "chennai", "madras", "tamizh"]

/-- The ASCII restriction of the regex word-character test `\w`:
letters, digits and underscore.  Python's `\w` on `str` is the Unicode
word table, which agrees with this predicate on ASCII characters; the
generic matcher below takes the predicate as a parameter, and this
instance is used for concrete evaluation on ASCII names. -/
def asciiWordChar (c : Char) : Bool :=
  c.isAlphanum || c == '_'

/-- Match the keyword characters `k` (all lowercase in
`tamil_keywords`) against a prefix of `s` up to the case folding
`fold`; return the remaining characters on success.  Models the
`re.IGNORECASE` literal match for an abstract folding (Python's is the
Unicode folding; on ASCII characters it is `Char.toLower`). -/
def matchFold (fold : Char → Char) : List Char → List Char → Option (List Char)
  | [], s => some s
  | _ :: _, [] => none
  | c :: k, d :: s => if fold d == c then matchFold fold k s else none

/-- The `\b` test before the keyword: start of string, or a non-word
character under the word table `isW`. -/
def boundaryOk (isW : Char → Bool) : Option Char → Bool
  | none => true
  | some c => !(isW c)

/-- The `\b` test after the keyword: end of string, or a non-word
character follows. -/
def afterOk (isW : Char → Bool) : List Char → Bool
  | [] => true
  | c :: _ => !(isW c)

/-- Does keyword `k` match at the current position (`prev` is the
character just before, `none` at the start of the string)? -/
def wordMatchHere (isW : Char → Bool) (fold : Char → Char)
    (prev : Option Char) (s : List Char) (k : String) : Bool :=
  boundaryOk isW prev &&
    (match matchFold fold k.data s with
     | none => false
     | some rest => afterOk isW rest)

/-- Scan of `re.search`: try the keyword at every position. -/
def wordSearchAux (isW : Char → Bool) (fold : Char → Char) (k : String) :
    Option Char → List Char → Bool
  | prev, [] => wordMatchHere isW fold prev [] k
  | prev, c :: rest =>
    wordMatchHere isW fold prev (c :: rest) k || wordSearchAux isW fold k (some c) rest

/-- `re.search(r'\b' + k + r'\b', s, re.IGNORECASE)` for a single
all-lowercase keyword `k`, relative to the word table `isW` and the
case folding `fold`. -/
def wordSearch (isW : Char → Bool) (fold : Char → Char) (k s : String) : Bool :=
  wordSearchAux isW fold k none s.data

/-- The filter of line 87 of the source:
`re.search(r'\b(?:tamil|kollywood|chennai|madras|tamizh)\b', playlist_name, re.IGNORECASE)`,
relative to the word table and folding.  The alternation succeeds iff
some keyword matches as a whole word. -/
def tamil_filter (isW : Char → Bool) (fold : Char → Char) (name : String) : Bool :=
  tamil_keywords.any (fun k => wordSearch isW fold k name)

/-- The line-87 filter instantiated at the ASCII restrictions of
Python's word table and case folding.  Every concrete name evaluated in
this file is ASCII, where Python's Unicode tables coincide with these
instances. -/
def tamil_name_matches (name : String) : Bool :=
  tamil_filter asciiWordChar Char.toLower name

/-- Stated from the spec's words, for comparison with the
source-derived `tamil_filter`: the display name contains an occurrence
`w` that equals a keyword up to the case folding, with no word
character adjacent on either side. -/
def SpecWholeWordMatch (isW : Char → Bool) (fold : Char → Char)
    (k : String) (name : String) : Prop :=
  ∃ pre w post : List Char,
    name.data = pre ++ w ++ post ∧
    w.map fold = k.data ∧
    (∀ c, pre.getLast? = some c → isW c = false) ∧
    (∀ c, post.head? = some c → isW c = false)

/-- Body of the inner `for playlist in ...items` loop for one item:
extract fields (the `['tracks']['total']` lookup raises on a missing
key), test the keyword filter, and build the record on a match. -/
def processItem (search_term ts : String) (p : Item) : Except Err (Option Record) :=
  let playlist_id := p.id
  let playlist_name := p.name.getD ""
  match p.tracksTotal with
  | none => .error .keyError
  | some total_tracks =>
    if tamil_name_matches playlist_name then
      .ok (some { PlaylistID := playlist_id, PlaylistName := playlist_name,
                  NumSongs := total_tracks, Query := search_term,
                  Language := "Tamil", Timestamp := ts })
    else
      .ok none

/-- The inner loop over the items of one search result page, in order;
the first raising item aborts the whole loop. -/
def processItems (search_term ts : String) : List Item → Except Err (List Record)
  | [] => .ok []
  | p :: ps =>
    match processItem search_term ts p with
    | .error e => .error e
    | .ok r =>
      match processItems search_term ts ps with
      | .error e => .error e
      | .ok rs =>
        match r with
        | none => .ok rs
        | some record => .ok (record :: rs)

/-- The outer `for search_term in queries` loop: one search call per
query (which may raise), then the item loop; records accumulate in
query order. -/
def collectRecords (search : String → Except Err (List Item)) (ts : String) :
    List String → Except Err (List Record)
  | [] => .ok []
  | q :: qs =>
    match search q with
    | .error e => .error e
    | .ok items =>
      match processItems q ts items with
      | .error e => .error e
      | .ok rs =>
        match collectRecords search ts qs with
        | .error e => .error e
        | .ok rest => .ok (rs ++ rest)

/-- The Python argument of `fetch_tamil_playlists`: either an actual
list of query strings or any non-list value. -/
inductive PyInput where
  | list (qs : List String)
  | notList
deriving DecidableEq, Repr

/-- Observable outcome of a `fetch_tamil_playlists` call that did not
raise: the returned value (`none` = the Python `None` sentinel) and the
contents of the output file afterwards (`none` = file absent). -/
structure FetchOut where
  ret : Option (List Record)
  fs : Option (List Record)
deriving DecidableEq, Repr

/-- `fetch_tamil_playlists(queries)`.  The `isinstance` check raises
`ValueError` before anything else (lines 56-57).  `preErr` is an
exception raised by `os.makedirs` (line 67) or `pd.read_excel`
(line 73): both run before the `try` of line 77, so such an exception
escapes the function.  Otherwise the existing table is loaded from the
output file `fs0` (empty table if absent) and the query loop runs
inside the `try`; any exception there is caught and the function
returns `None` with the file untouched.  `writeErr` is an exception
raised by `to_excel` (line 101, inside the `try`): it is caught the
same way, and the failed write is modelled as leaving the file
unchanged (a partially written file is not modelled).  On full success
the combined table is both written and returned.  An `Except.error`
result is an exception that escapes the function. -/
def fetch_tamil_playlists (search : String → Except Err (List Item))
    (queries : PyInput) (ts : String) (fs0 : Option (List Record))
    (preErr writeErr : Option Err) : Except Err FetchOut :=
  match queries with
  | .notList => .error .valueError
  | .list qs =>
    match preErr with
    | some e => .error e
    | none =>
      let existing_data := fs0.getD []
      match collectRecords search ts qs with
      | .error _ => .ok ⟨none, fs0⟩
      | .ok playlist_records =>
        let updated_df := existing_data ++ playlist_records
        match writeErr with
        | some _ => .ok ⟨none, fs0⟩
        | none => .ok ⟨some updated_df, some updated_df⟩

/-- The input spreadsheet `Queries.xlsx` as far as the entry routine
inspects it: the `Queries` column, if present, as a list of cells where
`none` is an empty (NaN) cell dropped by `dropna()`. -/
structure QueriesDF where
  queriesCol : Option (List (Option String))
deriving DecidableEq, Repr

/-- `df_queries['Queries'].dropna().tolist()`. -/
def dropna : List (Option String) → List String
  | [] => []
  | none :: xs => dropna xs
  | some x :: xs => x :: dropna xs

/-- Observable outcome of `run_tamil_playlist_scraper()`: which error
(if any) the outermost handler caught, what the retriever call returned
(`none` if it was never reached), and the output file afterwards.  The
function is total: every exception is caught, so the process exits
normally. -/
structure EntryOut where
  caught : Option Err
  fetchResult : Option (Option (List Record))
  fs : Option (List Record)
deriving DecidableEq, Repr

/-- `run_tamil_playlist_scraper()`.  `queriesFile` is the contents of
`Queries.xlsx` (`none` = absent, on which `FileNotFoundError` is
raised); a missing `Queries` column raises `KeyError`; both, and any
exception escaping `fetch_tamil_playlists` (whose environment
parameters are passed through), are caught by the outer handler. -/
def run_tamil_playlist_scraper (search : String → Except Err (List Item))
    (queriesFile : Option QueriesDF) (ts : String)
    (fs0 : Option (List Record)) (preErr writeErr : Option Err) : EntryOut :=
  match queriesFile with
  | none => ⟨some .fileNotFound, none, fs0⟩
  | some df =>
    match df.queriesCol with
    | none => ⟨some .missingColumn, none, fs0⟩
    | some col =>
      let queries := dropna col
      match fetch_tamil_playlists search (.list queries) ts fs0 preErr writeErr with
      | .error e => ⟨some e, none, fs0⟩
      | .ok out => ⟨none, some out.ret, out.fs⟩

/-! ## Concrete fixtures used to instantiate the theorems -/

/-- A search stub whose request always raises (an API failure). -/
def searchFail : String → Except Err (List Item) := fun _ => .error .searchError

/-- A well-formed item whose name contains the whole word "Tamil". -/
def itemTamilHits : Item := ⟨some "pl1", some "Tamil Hits", some 25⟩

/-- A search stub returning one matching playlist for every query. -/
def searchTamilHits : String → Except Err (List Item) := fun _ => .ok [itemTamilHits]

/-- The record the script builds from `itemTamilHits` for query `q` at
timestamp `ts`. -/
def recTamilHits (q ts : String) : Record :=
  ⟨some "pl1", "Tamil Hits", 25, q, "Tamil", ts⟩

/-- A row already present in the persisted table before a run. -/
def oldRec : Record := recTamilHits "q0" "t0"

/-- An item with a matching name but no `tracks`/`total` field: the
bracket lookup on it raises. -/
def itemNoTracks : Item := ⟨some "p2", some "Chennai beats", none⟩

/-- A search stub returning the track-less item for every query. -/
def searchNoTracks : String → Except Err (List Item) := fun _ => .ok [itemNoTracks]

/-! ## Lemmas about the word-boundary matcher -/

/-- The character (if any) immediately before a match that starts after
the prefix `pre`, when `prev` was the character before `pre`. -/
def charBefore (prev : Option Char) (pre : List Char) : Option Char :=
  match pre.getLast? with
  | some c => some c
  | none => prev

theorem charBefore_cons (prev : Option Char) (c : Char) (pre : List Char) :
    charBefore prev (c :: pre) = charBefore (some c) pre := by
  cases pre with
  | nil => rfl
  | cons d pre =>
    cases hq : (d :: pre).getLast? with
    | none => exact absurd hq (by simp)
    | some x => simp [charBefore, List.getLast?_cons_cons, hq]

theorem matchFold_eq_some_iff (fold : Char → Char) (k : List Char) :
    ∀ (s rest : List Char),
      matchFold fold k s = some rest ↔ ∃ w, s = w ++ rest ∧ w.map fold = k := by
  induction k with
  | nil =>
    intro s rest
    simp only [matchFold, Option.some.injEq]
    constructor
    · rintro rfl
      exact ⟨[], rfl, rfl⟩
    · rintro ⟨w, hs, hw⟩
      have hw0 : w = [] := List.map_eq_nil_iff.mp hw
      subst hw0
      simpa using hs
  | cons c k ih =>
    intro s rest
    cases s with
    | nil =>
      simp only [matchFold]
      constructor
      · intro h
        exact absurd h (by simp)
      · rintro ⟨w, hs, hw⟩
        have hw0 : w = [] := (List.append_eq_nil.mp hs.symm).1
        subst hw0
        simp at hw
    | cons d s =>
      simp only [matchFold]
      by_cases hd : fold d = c
      · rw [if_pos (by simpa using hd), ih s rest]
        constructor
        · rintro ⟨w, hs, hw⟩
          exact ⟨d :: w, by simp [hs], by simp [hw, hd]⟩
        · rintro ⟨w, hs, hw⟩
          cases w with
          | nil => simp at hw
          | cons e w =>
            have he : d = e ∧ s = w ++ rest := by simpa using hs
            have hw2 : fold e = c ∧ w.map fold = k := by simpa using hw
            exact ⟨w, he.2, hw2.2⟩
      · rw [if_neg (by simpa using hd)]
        constructor
        · intro h
          exact absurd h (by simp)
        · rintro ⟨w, hs, hw⟩
          cases w with
          | nil => simp at hw
          | cons e w =>
            have he : d = e ∧ s = w ++ rest := by simpa using hs
            have hw2 : fold e = c ∧ w.map fold = k := by simpa using hw
            rw [he.1] at hd
            exact absurd hw2.1 hd

theorem wordMatchHere_iff (isW : Char → Bool) (fold : Char → Char)
    (prev : Option Char) (s : List Char) (k : String) :
    wordMatchHere isW fold prev s k = true ↔
      boundaryOk isW prev = true ∧
        ∃ w post, s = w ++ post ∧ w.map fold = k.data ∧ afterOk isW post = true := by
  unfold wordMatchHere
  rw [Bool.and_eq_true]
  apply and_congr_right
  intro _
  constructor
  · intro h
    cases hm : matchFold fold k.data s with
    | none => rw [hm] at h; exact absurd h (by simp)
    | some rest =>
      rw [hm] at h
      obtain ⟨w, hs, hw⟩ := (matchFold_eq_some_iff fold k.data s rest).mp hm
      exact ⟨w, rest, hs, hw, h⟩
  · rintro ⟨w, post, hs, hw, hp⟩
    have hm : matchFold fold k.data s = some post :=
      (matchFold_eq_some_iff fold k.data s post).mpr ⟨w, hs, hw⟩
    rw [hm]
    exact hp

theorem wordSearchAux_iff (isW : Char → Bool) (fold : Char → Char)
    (k : String) (hk : k.data ≠ []) :
    ∀ (s : List Char) (prev : Option Char),
      wordSearchAux isW fold k prev s = true ↔
        ∃ pre w post, s = pre ++ w ++ post ∧ w.map fold = k.data ∧
          boundaryOk isW (charBefore prev pre) = true ∧ afterOk isW post = true := by
  intro s
  induction s with
  | nil =>
    intro prev
    simp only [wordSearchAux]
    rw [wordMatchHere_iff]
    constructor
    · rintro ⟨_, w, post, hs, hw, _⟩
      have hw0 : w = [] := (List.append_eq_nil.mp hs.symm).1
      subst hw0
      exact absurd hw.symm hk
    · rintro ⟨pre, w, post, hs, hw, _, _⟩
      have hw0 : w = [] := by
        have := List.append_eq_nil.mp hs.symm
        exact (List.append_eq_nil.mp this.1).2
      subst hw0
      exact absurd hw.symm hk
  | cons c rest ih =>
    intro prev
    simp only [wordSearchAux]
    rw [Bool.or_eq_true, wordMatchHere_iff, ih (some c)]
    constructor
    · rintro (⟨hb, w, post, hs, hw, hp⟩ | ⟨pre, w, post, hs, hw, hb, hp⟩)
      · exact ⟨[], w, post, by simpa using hs, hw, by simpa [charBefore] using hb, hp⟩
      · exact ⟨c :: pre, w, post, by simp [hs], hw, by rwa [charBefore_cons], hp⟩
    · rintro ⟨pre, w, post, hs, hw, hb, hp⟩
      cases pre with
      | nil =>
        left
        exact ⟨by simpa [charBefore] using hb, w, post, by simpa using hs, hw, hp⟩
      | cons e pre =>
        right
        have hc : c = e ∧ rest = pre ++ (w ++ post) := by simpa using hs
        refine ⟨pre, w, post, by simpa using hc.2, hw, ?_, hp⟩
        rw [charBefore_cons] at hb
        rwa [← hc.1] at hb

theorem wordSearch_iff (isW : Char → Bool) (fold : Char → Char)
    (k : String) (hk : k.data ≠ []) (s : String) :
    wordSearch isW fold k s = true ↔ SpecWholeWordMatch isW fold k s := by
  unfold wordSearch SpecWholeWordMatch
  rw [wordSearchAux_iff isW fold k hk s.data none]
  apply exists_congr
  intro pre
  apply exists_congr
  intro w
  apply exists_congr
  intro post
  apply and_congr_right
  intro _
  apply and_congr_right
  intro _
  apply and_congr
  · cases hp : pre.getLast? with
    | none => simp [charBefore, hp, boundaryOk]
    | some c => simp [charBefore, hp, boundaryOk]
  · cases post with
    | nil => simp [afterOk]
    | cons c post => simp [afterOk]

theorem keyword_data_ne_nil {k : String} (hk : k ∈ tamil_keywords) : k.data ≠ [] := by
  simp only [tamil_keywords, List.mem_cons, List.not_mem_nil, or_false] at hk
  rcases hk with rfl | rfl | rfl | rfl | rfl <;> decide

/-! ## Congruence of the matcher in the word table and the folding

The scan only applies `isW` and `fold` to characters of the scanned
string, so two tables agreeing on those characters give the same
result.  This transfers concrete ASCII evaluations to every table that
agrees with the ASCII one on ASCII characters, as Python's Unicode
tables do. -/

theorem matchFold_congr (f1 f2 : Char → Char) (k : List Char) :
    ∀ s : List Char, (∀ c, c ∈ s → f1 c = f2 c) →
      matchFold f1 k s = matchFold f2 k s := by
  induction k with
  | nil => intro s h; rfl
  | cons c k ih =>
    intro s h
    cases s with
    | nil => rfl
    | cons d s =>
      simp only [matchFold]
      rw [h d (by simp)]
      exact if_congr Iff.rfl (ih s (fun e he => h e (by simp [he]))) rfl

theorem afterOk_congr (w1 w2 : Char → Bool) :
    ∀ s : List Char, (∀ c, c ∈ s → w1 c = w2 c) → afterOk w1 s = afterOk w2 s := by
  intro s h
  cases s with
  | nil => rfl
  | cons c s =>
    simp only [afterOk]
    rw [h c (by simp)]

theorem wordMatchHere_congr (w1 w2 : Char → Bool) (f1 f2 : Char → Char)
    (prev : Option Char) (s : List Char) (k : String)
    (hW : ∀ c, c ∈ s → w1 c = w2 c)
    (hP : ∀ c, prev = some c → w1 c = w2 c)
    (hF : ∀ c, c ∈ s → f1 c = f2 c) :
    wordMatchHere w1 f1 prev s k = wordMatchHere w2 f2 prev s k := by
  unfold wordMatchHere
  have hb : boundaryOk w1 prev = boundaryOk w2 prev := by
    cases prev with
    | none => rfl
    | some c =>
      simp only [boundaryOk]
      rw [hP c rfl]
  rw [hb, matchFold_congr f1 f2 k.data s hF]
  cases hm : matchFold f2 k.data s with
  | none => simp only [hm]
  | some rest =>
    simp only [hm]
    obtain ⟨w, hs, -⟩ := (matchFold_eq_some_iff f2 k.data s rest).mp hm
    rw [afterOk_congr w1 w2 rest
      (fun c hc => hW c (hs.symm ▸ List.mem_append_right w hc))]

theorem wordSearchAux_congr (w1 w2 : Char → Bool) (f1 f2 : Char → Char) (k : String) :
    ∀ (s : List Char) (prev : Option Char),
      (∀ c, c ∈ s → w1 c = w2 c) → (∀ c, prev = some c → w1 c = w2 c) →
      (∀ c, c ∈ s → f1 c = f2 c) →
      wordSearchAux w1 f1 k prev s = wordSearchAux w2 f2 k prev s := by
  intro s
  induction s with
  | nil =>
    intro prev hW hP hF
    simp only [wordSearchAux]
    exact wordMatchHere_congr w1 w2 f1 f2 prev [] k (by simp) hP (by simp)
  | cons c rest ih =>
    intro prev hW hP hF
    simp only [wordSearchAux]
    rw [wordMatchHere_congr w1 w2 f1 f2 prev (c :: rest) k hW hP hF,
      ih (some c) (fun d hd => hW d (List.mem_cons_of_mem c hd))
        (fun d hd => (Option.some.inj hd) ▸ hW c (List.mem_cons_self c rest))
        (fun d hd => hF d (List.mem_cons_of_mem c hd))]

theorem wordSearch_congr (w1 w2 : Char → Bool) (f1 f2 : Char → Char) (k s : String)
    (hW : ∀ c, c ∈ s.data → w1 c = w2 c) (hF : ∀ c, c ∈ s.data → f1 c = f2 c) :
    wordSearch w1 f1 k s = wordSearch w2 f2 k s :=
  wordSearchAux_congr w1 w2 f1 f2 k s.data none hW (fun _ hc => nomatch hc) hF

theorem tamil_filter_congr (w1 w2 : Char → Bool) (f1 f2 : Char → Char) (name : String)
    (hW : ∀ c, c ∈ name.data → w1 c = w2 c)
    (hF : ∀ c, c ∈ name.data → f1 c = f2 c) :
    tamil_filter w1 f1 name = tamil_filter w2 f2 name := by
  simp only [tamil_filter, tamil_keywords, List.any_cons, List.any_nil]
  rw [wordSearch_congr w1 w2 f1 f2 "tamil" name hW hF,
    wordSearch_congr w1 w2 f1 f2 "kollywood" name hW hF,
    wordSearch_congr w1 w2 f1 f2 "chennai" name hW hF,
    wordSearch_congr w1 w2 f1 f2 "madras" name hW hF,
    wordSearch_congr w1 w2 f1 f2 "tamizh" name hW hF]

/-! ## Claim theorems -/

/-- Claim C1: the keyword filter of `fetch_tamil_playlists` is exactly
a case-insensitive whole-word match of the display name against the
set {tamil, kollywood, chennai, madras, tamizh}.  The equivalence with
the spec-worded whole-word property holds for every word-character
table and case folding, in particular Python's Unicode tables; and for
every table agreeing with the ASCII one on ASCII characters (as
Python's does), a name containing "tamiland" and no other keyword
occurrence does not match, while a name containing "Tamil Hits" does. -/
theorem C1_keyword_filter_whole_word :
    (∀ (isW : Char → Bool) (fold : Char → Char) (name : String),
        tamil_filter isW fold name = true ↔
          ∃ k, k ∈ tamil_keywords ∧ SpecWholeWordMatch isW fold k name) ∧
    (∀ (isW : Char → Bool) (fold : Char → Char),
        (∀ c : Char, c.val < 128 → isW c = asciiWordChar c) →
        (∀ c : Char, c.val < 128 → fold c = c.toLower) →
        tamil_filter isW fold "tamiland" = false ∧
        tamil_filter isW fold "best tamiland mix" = false ∧
        tamil_filter isW fold "Tamil Hits" = true ∧
        tamil_filter isW fold "Top Tamil Hits 2024" = true) := by
  constructor
  · intro isW fold name
    unfold tamil_filter
    rw [List.any_eq_true]
    constructor
    · rintro ⟨k, hk, hs⟩
      exact ⟨k, hk, (wordSearch_iff isW fold k (keyword_data_ne_nil hk) name).mp hs⟩
    · rintro ⟨k, hk, hs⟩
      exact ⟨k, hk, (wordSearch_iff isW fold k (keyword_data_ne_nil hk) name).mpr hs⟩
  · intro isW fold hW hF
    have hinst : ∀ name : String, (∀ c, c ∈ name.data → c.val < 128) →
        tamil_filter isW fold name = tamil_name_matches name := by
      intro name hascii
      unfold tamil_name_matches
      exact tamil_filter_congr isW asciiWordChar fold Char.toLower name
        (fun c hc => hW c (hascii c hc)) (fun c hc => hF c (hascii c hc))
    refine ⟨?_, ?_, ?_, ?_⟩ <;> rw [hinst _ (by decide)] <;> decide

/-- Witness for claim C1: the ASCII instantiation itself satisfies the
agreement hypotheses, and the concrete examples evaluate as claimed. -/
theorem C1_witness :
    tamil_filter asciiWordChar Char.toLower "tamiland" = false ∧
    tamil_filter asciiWordChar Char.toLower "best tamiland mix" = false ∧
    tamil_filter asciiWordChar Char.toLower "Tamil Hits" = true ∧
    tamil_filter asciiWordChar Char.toLower "Top Tamil Hits 2024" = true :=
  C1_keyword_filter_whole_word.2 asciiWordChar Char.toLower
    (fun _ _ => rfl) (fun _ _ => rfl)

/-! ## Lemmas about the retrieval loop -/

theorem processItem_ok_some (q ts : String) (p : Item) (r : Record)
    (h : processItem q ts p = .ok (some r)) :
    r.Language = "Tamil" ∧ r.Query = q ∧ r.Timestamp = ts := by
  cases htt : p.tracksTotal with
  | none =>
    simp [processItem, htt] at h
  | some n =>
    by_cases hm : tamil_name_matches (p.name.getD "") = true
    · simp only [processItem, htt, if_pos hm, Except.ok.injEq, Option.some.injEq] at h
      subst h
      exact ⟨rfl, rfl, rfl⟩
    · simp [processItem, htt, hm] at h

theorem processItems_fields (q ts : String) :
    ∀ (items : List Item) (recs : List Record),
      processItems q ts items = .ok recs →
      ∀ r, r ∈ recs → r.Language = "Tamil" ∧ r.Query = q ∧ r.Timestamp = ts := by
  intro items
  induction items with
  | nil =>
    intro recs h r hr
    simp only [processItems, Except.ok.injEq] at h
    subst h
    simp at hr
  | cons p ps ih =>
    intro recs h r hr
    cases hp : processItem q ts p with
    | error e => simp [processItems, hp] at h
    | ok r0 =>
      cases hps : processItems q ts ps with
      | error e => simp [processItems, hp, hps] at h
      | ok rs =>
        cases r0 with
        | none =>
          simp only [processItems, hp, hps, Except.ok.injEq] at h
          subst h
          exact ih rs hps r hr
        | some rec0 =>
          simp only [processItems, hp, hps, Except.ok.injEq] at h
          subst h
          rcases List.mem_cons.mp hr with rfl | hr2
          · exact processItem_ok_some q ts p r hp
          · exact ih rs hps r hr2

theorem collectRecords_fields (search : String → Except Err (List Item)) (ts : String) :
    ∀ (qs : List String) (recs : List Record),
      collectRecords search ts qs = .ok recs →
      ∀ r, r ∈ recs → r.Language = "Tamil" ∧ r.Query ∈ qs ∧ r.Timestamp = ts := by
  intro qs
  induction qs with
  | nil =>
    intro recs h r hr
    simp only [collectRecords, Except.ok.injEq] at h
    subst h
    simp at hr
  | cons q qs ih =>
    intro recs h r hr
    cases hs : search q with
    | error e => simp [collectRecords, hs] at h
    | ok items =>
      cases hpi : processItems q ts items with
      | error e => simp [collectRecords, hs, hpi] at h
      | ok rs =>
        cases hcr : collectRecords search ts qs with
        | error e => simp [collectRecords, hs, hpi, hcr] at h
        | ok rest =>
          simp only [collectRecords, hs, hpi, hcr, Except.ok.injEq] at h
          subst h
          rcases List.mem_append.mp hr with hr1 | hr2
          · obtain ⟨hL, hQ, hT⟩ := processItems_fields q ts items rs hpi r hr1
            exact ⟨hL, by simp [hQ], hT⟩
          · obtain ⟨hL, hQ, hT⟩ := ih rest hcr r hr2
            exact ⟨hL, List.mem_cons_of_mem q hQ, hT⟩

theorem processItems_error_of_missing_tracks (q ts : String) :
    ∀ (items : List Item), (∃ p, p ∈ items ∧ p.tracksTotal = none) →
      ∃ e, processItems q ts items = .error e := by
  intro items
  induction items with
  | nil =>
    rintro ⟨p, hp, -⟩
    simp at hp
  | cons p0 ps ih =>
    rintro ⟨p, hp, htt⟩
    rcases List.mem_cons.mp hp with rfl | hp2
    · have h0 : processItem q ts p = .error .keyError := by
        simp [processItem, htt]
      exact ⟨.keyError, by simp only [processItems, h0]⟩
    · cases hp0 : processItem q ts p0 with
      | error e => exact ⟨e, by simp only [processItems, hp0]⟩
      | ok r0 =>
        obtain ⟨e, he⟩ := ih ⟨p, hp2, htt⟩
        exact ⟨e, by simp only [processItems, hp0, he]⟩

theorem collectRecords_error_of_missing_tracks
    (search : String → Except Err (List Item)) (ts : String) :
    ∀ (qs : List String) (q : String) (items : List Item),
      q ∈ qs → search q = .ok items → (∃ p, p ∈ items ∧ p.tracksTotal = none) →
      ∃ e, collectRecords search ts qs = .error e := by
  intro qs
  induction qs with
  | nil =>
    intro q items hq
    simp at hq
  | cons q0 qs ih =>
    intro q items hq hs hmiss
    cases hs0 : search q0 with
    | error e => exact ⟨e, by simp only [collectRecords, hs0]⟩
    | ok items0 =>
      cases hpi : processItems q0 ts items0 with
      | error e => exact ⟨e, by simp only [collectRecords, hs0, hpi]⟩
      | ok rs =>
        rcases List.mem_cons.mp hq with rfl | hq2
        · rw [hs0] at hs
          have hi : items0 = items := by
            simpa using hs
          obtain ⟨e, he⟩ :=
            processItems_error_of_missing_tracks q ts items0 (hi ▸ hmiss)
          rw [he] at hpi
          exact absurd hpi (by simp)
        · obtain ⟨e, he⟩ := ih q items hq2 hs hmiss
          exact ⟨e, by simp only [collectRecords, hs0, hpi, he]⟩

theorem fetch_of_collect_error
    (search : String → Except Err (List Item)) (qs : List String)
    (ts : String) (fs0 : Option (List Record)) (writeErr : Option Err) (e : Err)
    (h : collectRecords search ts qs = .error e) :
    fetch_tamil_playlists search (.list qs) ts fs0 none writeErr = .ok ⟨none, fs0⟩ := by
  simp only [fetch_tamil_playlists, h]

theorem fetch_of_collect_ok
    (search : String → Except Err (List Item)) (qs : List String)
    (ts : String) (fs0 : Option (List Record)) (recs : List Record)
    (h : collectRecords search ts qs = .ok recs) :
    fetch_tamil_playlists search (.list qs) ts fs0 none none =
      .ok ⟨some (fs0.getD [] ++ recs), some (fs0.getD [] ++ recs)⟩ := by
  simp only [fetch_tamil_playlists, h]

theorem fetch_of_write_error
    (search : String → Except Err (List Item)) (qs : List String)
    (ts : String) (fs0 : Option (List Record)) (recs : List Record) (e : Err)
    (h : collectRecords search ts qs = .ok recs) :
    fetch_tamil_playlists search (.list qs) ts fs0 none (some e) = .ok ⟨none, fs0⟩ := by
  simp only [fetch_tamil_playlists, h]

/-! ## Claim theorems (continued) -/

/-- Claim C2: an exception raised inside the try block — anywhere in
the per-query search loop, or in the write of the merged table — is
caught by `fetch_tamil_playlists`: the call returns the `None`
sentinel, the output file keeps its prior contents (the failed write is
modelled as leaving the file unchanged), and every record gathered in
the run is discarded, with no partial-result return. -/
theorem C2_try_exception_yields_sentinel
    (search : String → Except Err (List Item)) (qs : List String)
    (ts : String) (fs0 : Option (List Record)) (writeErr : Option Err)
    (h : (∃ e, collectRecords search ts qs = .error e) ∨ writeErr.isSome = true) :
    fetch_tamil_playlists search (.list qs) ts fs0 none writeErr = .ok ⟨none, fs0⟩ := by
  rcases h with ⟨e, he⟩ | hw
  · exact fetch_of_collect_error search qs ts fs0 writeErr e he
  · cases hcr : collectRecords search ts qs with
    | error e => exact fetch_of_collect_error search qs ts fs0 writeErr e hcr
    | ok recs =>
      cases writeErr with
      | none => simp at hw
      | some e => exact fetch_of_write_error search qs ts fs0 recs e hcr

/-- Witness for claim C2: a run whose loop succeeds and gathers one
record, but whose write raises, returns `None` and leaves the one-row
persisted table untouched — the gathered record is discarded. -/
theorem C2_witness :
    fetch_tamil_playlists searchTamilHits (.list ["q"]) "ts" (some [oldRec])
      none (some .writeError) = .ok ⟨none, some [oldRec]⟩ :=
  C2_try_exception_yields_sentinel searchTamilHits ["q"] "ts" (some [oldRec])
    (some .writeError) (Or.inr rfl)

/-- Claim C3: with an empty query list (and no environment failure) the
returned and written table is exactly the pre-existing persisted table
(the empty table if the file is absent), with no new rows. -/
theorem C3_empty_queries_table_unchanged
    (search : String → Except Err (List Item)) (ts : String)
    (fs0 : Option (List Record)) :
    fetch_tamil_playlists search (.list []) ts fs0 none none =
      .ok ⟨some (fs0.getD []), some (fs0.getD [])⟩ := by
  simp [fetch_tamil_playlists, collectRecords]

/-- Claim C4: on every successful run the written and returned table is
the previously persisted rows followed by the newly collected records,
in that order. -/
theorem C4_concat_old_then_new
    (search : String → Except Err (List Item)) (qs : List String)
    (ts : String) (fs0 : Option (List Record)) (recs : List Record)
    (h : collectRecords search ts qs = .ok recs) :
    fetch_tamil_playlists search (.list qs) ts fs0 none none =
      .ok ⟨some (fs0.getD [] ++ recs), some (fs0.getD [] ++ recs)⟩ :=
  fetch_of_collect_ok search qs ts fs0 recs h

/-- Witness for claim C4: one matching query appends its record after
the pre-existing row. -/
theorem C4_witness :
    fetch_tamil_playlists searchTamilHits (.list ["q"]) "ts" (some [oldRec])
      none none =
      .ok ⟨some [oldRec, recTamilHits "q" "ts"],
           some [oldRec, recTamilHits "q" "ts"]⟩ :=
  C4_concat_old_then_new searchTamilHits ["q"] "ts" (some [oldRec])
    [recTamilHits "q" "ts"] rfl

/-- Claim C5: the merge step never removes or rewrites rows — running
the retrieval twice with the same query and the same matching results
yields a persisted table holding the same record (same PlaylistID)
at least twice. -/
theorem C5_rerun_duplicates_rows
    (search : String → Except Err (List Item)) (q ts : String)
    (fs0 : Option (List Record)) (r : Record) (recs : List Record)
    (out1 out2 : FetchOut)
    (h : collectRecords search ts [q] = .ok recs) (hr : r ∈ recs)
    (h1 : fetch_tamil_playlists search (.list [q]) ts fs0 none none = .ok out1)
    (h2 : fetch_tamil_playlists search (.list [q]) ts out1.fs none none = .ok out2) :
    ∃ t2, out2.ret = some t2 ∧ 2 ≤ t2.count r := by
  rw [fetch_of_collect_ok search [q] ts fs0 recs h] at h1
  injection h1 with h1
  subst h1
  have h2b : fetch_tamil_playlists search (.list [q]) ts
      (some (fs0.getD [] ++ recs)) none none = .ok out2 := h2
  rw [fetch_of_collect_ok search [q] ts (some (fs0.getD [] ++ recs)) recs h] at h2b
  injection h2b with h2b
  subst h2b
  refine ⟨fs0.getD [] ++ recs ++ recs, rfl, ?_⟩
  rw [List.count_append, List.count_append]
  have hc : 0 < recs.count r := List.count_pos_iff.mpr hr
  omega

/-- Witness for claim C5: with one query returning one matching
playlist, two consecutive runs starting from an absent file leave the
same record in the table twice. -/
theorem C5_witness :
    ∃ t2,
      (FetchOut.mk (some [recTamilHits "q" "ts", recTamilHits "q" "ts"])
          (some [recTamilHits "q" "ts", recTamilHits "q" "ts"])).ret = some t2 ∧
        2 ≤ t2.count (recTamilHits "q" "ts") :=
  C5_rerun_duplicates_rows searchTamilHits "q" "ts" none (recTamilHits "q" "ts")
    [recTamilHits "q" "ts"]
    ⟨some [recTamilHits "q" "ts"], some [recTamilHits "q" "ts"]⟩
    ⟨some [recTamilHits "q" "ts", recTamilHits "q" "ts"],
     some [recTamilHits "q" "ts", recTamilHits "q" "ts"]⟩
    rfl (by simp) rfl rfl

/-- Claim C6: every record collected in a run is tagged with the
constant language label "Tamil", the query phrase that produced it, and
the single timestamp captured at the start of the run; and for an item
whose name passes the keyword filter (and whose track count is
readable), a record with exactly those fields is produced. -/
theorem C6_record_tagging :
    (∀ (q ts : String) (items : List Item) (recs : List Record),
        processItems q ts items = .ok recs →
        ∀ r, r ∈ recs → r.Language = "Tamil" ∧ r.Query = q ∧ r.Timestamp = ts) ∧
    (∀ (search : String → Except Err (List Item)) (ts : String)
        (qs : List String) (recs : List Record),
        collectRecords search ts qs = .ok recs →
        ∀ r, r ∈ recs → r.Timestamp = ts ∧ r.Query ∈ qs) ∧
    (∀ (q ts : String) (p : Item) (n : Nat),
        tamil_name_matches (p.name.getD "") = true → p.tracksTotal = some n →
        processItem q ts p = .ok (some ⟨p.id, p.name.getD "", n, q, "Tamil", ts⟩)) := by
  refine ⟨fun q ts => processItems_fields q ts, ?_, ?_⟩
  · intro search ts qs recs h r hr
    obtain ⟨-, hQ, hT⟩ := collectRecords_fields search ts qs recs h r hr
    exact ⟨hT, hQ⟩
  · intro q ts p n hm htt
    simp [processItem, htt, hm]

/-- Witness for claim C6: the record built from the "Tamil Hits" item
carries Language "Tamil", its query and the run timestamp. -/
theorem C6_witness :
    (recTamilHits "q" "ts").Language = "Tamil" ∧
      (recTamilHits "q" "ts").Query = "q" ∧
      (recTamilHits "q" "ts").Timestamp = "ts" :=
  C6_record_tagging.1 "q" "ts" [itemTamilHits] [recTamilHits "q" "ts"] rfl
    (recTamilHits "q" "ts") (by simp)

/-- Claim C7 counterexample: a non-list input makes
`fetch_tamil_playlists` raise `ValueError` to its caller (the
`isinstance` check sits before the `try` block), so not every
retrieval-tier error is caught inside the function. -/
theorem C7_counterexample :
    fetch_tamil_playlists searchTamilHits .notList "ts" none none none =
      .error .valueError :=
  rfl

/-- Claim C7 as amended: errors raised inside the try block — any
exception in the per-query search loop and a failing final write — are
caught inside `fetch_tamil_playlists` and reported as the `None`
sentinel (with those the only in-try error sources, no exception then
escapes), but two error paths escape to the caller: the bad-input-type
`ValueError`, and any exception of the directory-creation and
existing-table load, all of which run before the `try` block. -/
theorem C7_error_containment_amended :
    (∀ (search : String → Except Err (List Item)) (ts : String)
        (fs0 : Option (List Record)) (preErr writeErr : Option Err),
        fetch_tamil_playlists search .notList ts fs0 preErr writeErr =
          .error .valueError) ∧
    (∀ (search : String → Except Err (List Item)) (qs : List String)
        (ts : String) (fs0 : Option (List Record)) (e : Err) (writeErr : Option Err),
        fetch_tamil_playlists search (.list qs) ts fs0 (some e) writeErr =
          .error e) ∧
    (∀ (search : String → Except Err (List Item)) (qs : List String)
        (ts : String) (fs0 : Option (List Record)) (writeErr : Option Err),
        ∃ out : FetchOut,
          fetch_tamil_playlists search (.list qs) ts fs0 none writeErr = .ok out) := by
  refine ⟨fun _ _ _ _ _ => rfl, fun _ _ _ _ _ _ => rfl, ?_⟩
  intro search qs ts fs0 writeErr
  cases h : collectRecords search ts qs with
  | error e => exact ⟨⟨none, fs0⟩, by simp only [fetch_tamil_playlists, h]⟩
  | ok recs =>
    cases writeErr with
    | none =>
      exact ⟨⟨some (fs0.getD [] ++ recs), some (fs0.getD [] ++ recs)⟩,
        by simp only [fetch_tamil_playlists, h]⟩
    | some e => exact ⟨⟨none, fs0⟩, by simp only [fetch_tamil_playlists, h]⟩

/-- Claim C8: a non-list `queries` argument makes
`fetch_tamil_playlists` raise `ValueError` before any search is
attempted, whatever the search behaviour, timestamp, file state and
environment failures. -/
theorem C8_nonlist_input_raises :
    ∀ (search : String → Except Err (List Item)) (ts : String)
      (fs0 : Option (List Record)) (preErr writeErr : Option Err),
      fetch_tamil_playlists search .notList ts fs0 preErr writeErr =
        .error .valueError :=
  fun _ _ _ _ _ => rfl

/-- Claim C9: when `Queries.xlsx` is absent the entry routine catches
the `FileNotFoundError` at its outermost handler, never calls the
retriever, and leaves the output file untouched; being a total
function, it always returns normally. -/
theorem C9_missing_queries_file :
    ∀ (search : String → Except Err (List Item)) (ts : String)
      (fs0 : Option (List Record)) (preErr writeErr : Option Err),
      run_tamil_playlist_scraper search none ts fs0 preErr writeErr =
        ⟨some .fileNotFound, none, fs0⟩ :=
  fun _ _ _ _ _ => rfl

/-- Claim C10: field extraction is not uniformly total — a missing
display name is read as the empty string and a missing identifier
yields a record with a null PlaylistID, both without error, but a
missing tracks/total field raises, which makes the whole call return
the `None` sentinel and discard every record gathered in the run. -/
theorem C10_field_extraction_partiality :
    (∀ (q ts : String) (id : Option String) (tt : Option Nat),
        processItem q ts ⟨id, none, tt⟩ = processItem q ts ⟨id, some "", tt⟩) ∧
    (∀ (q ts : String) (nm : Option String) (n : Nat),
        ∃ o : Option Record,
          processItem q ts ⟨none, nm, some n⟩ = .ok o ∧
            ∀ r, o = some r → r.PlaylistID = none) ∧
    (∀ (q ts : String) (id nm : Option String),
        processItem q ts ⟨id, nm, none⟩ = .error .keyError) ∧
    (∀ (search : String → Except Err (List Item)) (qs : List String)
        (ts : String) (fs0 : Option (List Record)) (q : String)
        (items : List Item) (p : Item) (writeErr : Option Err),
        q ∈ qs → search q = .ok items → p ∈ items → p.tracksTotal = none →
        fetch_tamil_playlists search (.list qs) ts fs0 none writeErr =
          .ok ⟨none, fs0⟩) := by
  refine ⟨fun q ts id tt => rfl, ?_, fun q ts id nm => rfl, ?_⟩
  · intro q ts nm n
    by_cases hm : tamil_name_matches (nm.getD "") = true
    · exact ⟨some ⟨none, nm.getD "", n, q, "Tamil", ts⟩,
        by simp [processItem, hm], fun r hr => by
          have hr2 := Option.some.inj hr
          subst hr2
          rfl⟩
    · exact ⟨none, by simp [processItem, hm], fun r hr => by simp at hr⟩
  · intro search qs ts fs0 q items p writeErr hq hs hp htt
    obtain ⟨e, he⟩ :=
      collectRecords_error_of_missing_tracks search ts qs q items hq hs ⟨p, hp, htt⟩
    exact fetch_of_collect_error search qs ts fs0 writeErr e he

/-- Witness for claim C10: a query whose result page holds an item
without a track count makes the run return `None` and leave the
one-row persisted table untouched. -/
theorem C10_witness :
    fetch_tamil_playlists searchNoTracks (.list ["q"]) "ts" (some [oldRec])
      none none = .ok ⟨none, some [oldRec]⟩ :=
  C10_field_extraction_partiality.2.2.2 searchNoTracks ["q"] "ts" (some [oldRec])
    "q" [itemNoTracks] itemNoTracks none (by simp) rfl (by simp) rfl

end TamilScraper
